import Mathlib

/-!
Shallow embedding of the MCP tool core of `app/mcp/base.py`
(`ToolParameter`, `ToolMetadata`, `ToolResult`, `MCPTool.initializeTool`,
`MCPTool.validate_parameters`, `MCPTool.safe_execute`,
`MCPTool.to_langchain_tool_schema`, `ToolRegistry`).

Modelling choices:
* Python argument values are modelled by the inductive `Value`; the Python
  `None` object is the constructor `Value.none`, so `kwargs.get(name)`
  (which yields `None` both for an absent key and for an explicit `None`)
  is `getValue`.
* Python `dict`s are association lists (`List (String × _)`) with
  insertion-order semantics: `alistInsert` overwrites in place or appends,
  exactly like `d[k] = v`; `alookup` is `d.get(k)`.
* `async` and exceptions: a computation that can raise is an
  `Except String _` value, the `String` being `str(e)`.  The private
  `_initialize` hook of a concrete tool is passed to `initializeTool` as an
  explicit `Except String Unit` outcome, and the tool's `execute` body is a
  function into `Except String ToolResult`.
* Wall-clock time: `safe_execute` receives the entry instant `t0` and the
  instant `t1` at which `datetime.now()` is read again, as rationals;
  `(datetime.now() - start_time).total_seconds()` is `t1 - t0`.
* The `timestamp` field of `ToolResult` (defaulted to `datetime.now()` in
  the source) is nondeterministic clock output untouched by every claim and
  is left out of the embedding.
-/

/-- A Python runtime value, as far as the tool layer inspects one.
`Value.none` is Python `None`. -/
inductive Value where
  | none
  | str (s : String)
  | int (n : Int)
  | bool (b : Bool)
deriving DecidableEq, Repr

/-- Model `ToolParameter` (pydantic model, `base.py` lines 13-20).  In the source
`default : Optional[Any] = None` and `enum : Optional[List[Any]] = None`;
the absent default is the Python value `None`, i.e. `Value.none`. -/
structure ToolParameter where
  name : String
  type : String
  description : String
  required : Bool := true
  default : Value := Value.none
  enum : Option (List Value) := Option.none
deriving DecidableEq, Repr

/-- Model `ToolMetadata` (`base.py` lines 22-30). -/
structure ToolMetadata where
  name : String
  description : String
  parameters : List ToolParameter
  category : String := "general"
  version : String := "1.0.0"
  author : Option String := Option.none
  tags : List String := []
deriving DecidableEq, Repr

/-- Model `ToolResult` (`base.py` lines 32-39), without the nondeterministic
`timestamp` field. -/
structure ToolResult where
  success : Bool
  result : Option Value := Option.none
  error : Option String := Option.none
  metadata : Option (List (String × Value)) := Option.none
  execution_time : Option Rat := Option.none
deriving DecidableEq, Repr

instance {ε α : Type} [DecidableEq ε] [DecidableEq α] :
    DecidableEq (Except ε α) := fun a b =>
  match a, b with
  | Except.error e1, Except.error e2 =>
    if h : e1 = e2 then isTrue (by rw [h])
    else isFalse (fun hh => h (by cases hh; rfl))
  | Except.error _, Except.ok _ => isFalse (fun hh => Except.noConfusion hh)
  | Except.ok _, Except.error _ => isFalse (fun hh => Except.noConfusion hh)
  | Except.ok a1, Except.ok a2 =>
    if h : a1 = a2 then isTrue (by rw [h])
    else isFalse (fun hh => h (by cases hh; rfl))

/-- Python `d.get(k)` on a dict modelled as an association list. -/
def alookup {α : Type} (name : String) : List (String × α) → Option α
  | [] => Option.none
  | (k, v) :: rest => if k = name then some v else alookup name rest

/-- Python `d[k] = v` on a dict: overwrite in place, else append. -/
def alistInsert {α : Type} (l : List (String × α)) (k : String) (v : α) :
    List (String × α) :=
  match l with
  | [] => [(k, v)]
  | (k2, v2) :: rest =>
    if k2 = k then (k, v) :: rest else (k2, v2) :: alistInsert rest k v

/-- Python `kwargs.get(param.name)`: `Value.none` both when the key is absent and
when `None` was passed explicitly. -/
def getValue (args : List (String × Value)) (name : String) : Value :=
  (alookup name args).getD Value.none

/-- Python truthiness of `param.enum : Optional[List]`: `None` and `[]` are
falsy, a non-empty list is truthy. -/
def enumTruthy : Option (List Value) → Bool
  | Option.none => false
  | some l => !l.isEmpty

/-- The single-quote character of a Python `repr` of a string. -/
def pyQuote : String := String.singleton (Char.ofNat 39)

/-- Python `repr` of a `Value`, as used when a list is interpolated into an
f-string. -/
def pyRepr : Value → String
  | Value.none => "None"
  | Value.str s => pyQuote ++ s ++ pyQuote
  | Value.int n => toString n
  | Value.bool b => if b then "True" else "False"

/-- Python `str` of a list of values (`f"... {param.enum} ..."`). -/
def pyReprList (l : List Value) : String :=
  "[" ++ String.intercalate ", " (l.map pyRepr) ++ "]"

/-- Message `str(ValueError(f"缺少必需参数: \x7bparam.name\x7d"))`. -/
def missingParamMsg (name : String) : String := "缺少必需参数: " ++ name

/-- Message `str(ValueError(f"参数 \x7bparam.name\x7d 值必须在 \x7bparam.enum\x7d 中"))`. -/
def enumParamMsg (name : String) (l : List Value) : String :=
  "参数 " ++ name ++ " 值必须在 " ++ pyReprList l ++ " 中"

/-- The loop body of `MCPTool.validate_parameters` (`base.py` lines 77-95),
structurally recursive over the declared parameters, threading the
`validated` dict.  A raised `ValueError` is the `Except.error` case. -/
def validateParams : List ToolParameter → List (String × Value) →
    List (String × Value) → Except String (List (String × Value))
  | [], _, validated => Except.ok validated
  | p :: rest, args, validated =>
    let value := getValue args p.name
    if p.required = true ∧ value = Value.none then
      Except.error (missingParamMsg p.name)
    else
      let value := if value = Value.none ∧ p.default ≠ Value.none then
        p.default else value
      if value ≠ Value.none then
        match p.enum with
        | some l =>
          if l ≠ [] ∧ value ∉ l then Except.error (enumParamMsg p.name l)
          else validateParams rest args (alistInsert validated p.name value)
        | Option.none => validateParams rest args (alistInsert validated p.name value)
      else validateParams rest args validated

/-- Method `MCPTool.validate_parameters(**kwargs)`. -/
def validate_parameters (m : ToolMetadata) (args : List (String × Value)) :
    Except String (List (String × Value)) :=
  validateParams m.parameters args []

/-- A concrete `MCPTool`: its `metadata` property and its `execute` body
(which may raise, hence `Except`). -/
structure Tool where
  metadata : ToolMetadata
  execute : List (String × Value) → Except String ToolResult

/-- Method `MCPTool.initialize` (`base.py` lines 59-71) as a transition on the
`_initialized` flag: given the current flag and the outcome the
`_initialize` hook would have on this call, returns the new flag and the
boolean return value.  The `except` branch swallows the exception and
returns `False`, leaving the flag unchanged. -/
def initializeTool (flag : Bool) (setup : Except String Unit) : Bool × Bool :=
  if flag = false then
    match setup with
    | Except.ok _ => (true, true)
    | Except.error _ => (flag, false)
  else (flag, true)

/-- Method `MCPTool.safe_execute` (`base.py` lines 97-127).  `flag` is the current
`_initialized` flag, `setup` the outcome `_initialize` would have, `t0` the
entry instant and `t1` the instant `datetime.now()` is read after the body.
Returns the new flag together with the `ToolResult` envelope. -/
def safe_execute (tool : Tool) (flag : Bool) (setup : Except String Unit)
    (args : List (String × Value)) (t0 t1 : Rat) : Bool × ToolResult :=
  let r := initializeTool flag setup
  if r.2 = false then
    (r.1, { success := false, error := some "工具初始化失败" })
  else
    match validate_parameters tool.metadata args with
    | Except.error msg =>
      (r.1, { success := false, error := some msg,
              execution_time := some (t1 - t0) })
    | Except.ok validated =>
      match tool.execute validated with
      | Except.error msg =>
        (r.1, { success := false, error := some msg,
                execution_time := some (t1 - t0) })
      | Except.ok result =>
        (r.1, { result with execution_time := some (t1 - t0) })

/-- One property object of the exported schema; an `Option.none` field means
the key is absent from the Python dict. -/
structure PropertySchema where
  type : String
  description : String
  enum : Option (List Value) := Option.none
  default : Option Value := Option.none
deriving DecidableEq, Repr

/-- The dict returned by `MCPTool.to_langchain_tool_schema`. -/
structure ToolSchema where
  name : String
  description : String
  properties : List (String × PropertySchema)
  required : List String
deriving DecidableEq, Repr

/-- The property built for one parameter by the dict comprehension of
`to_langchain_tool_schema` (`base.py` lines 137-142): `enum` is spliced in
only when `param.enum` is truthy (present and non-empty), `default` only
when `param.default is not None`. -/
def paramProperty (p : ToolParameter) : PropertySchema :=
  { type := p.type
    description := p.description
    enum := if enumTruthy p.enum = true then p.enum else Option.none
    default := if p.default ≠ Value.none then some p.default else Option.none }

/-- Method `MCPTool.to_langchain_tool_schema` (`base.py` lines 129-147); the dict
comprehension over parameters is a left fold of dict insertions. -/
def to_langchain_tool_schema (m : ToolMetadata) : ToolSchema :=
  { name := m.name
    description := m.description
    properties := m.parameters.foldl
      (fun acc p => alistInsert acc p.name (paramProperty p)) []
    required := (m.parameters.filter (fun p => p.required = true)).map
      (fun p => p.name) }

/-- Class `ToolRegistry` (`base.py` lines 149-188): the `_tools` dict and the
`_categories` dict. -/
structure ToolRegistry where
  tools : List (String × Tool)
  categories : List (String × List String)

/-- Constructor `ToolRegistry.__init__`. -/
def emptyRegistry : ToolRegistry := { tools := [], categories := [] }

/-- Method `ToolRegistry.register` (`base.py` lines 156-167). -/
def register (r : ToolRegistry) (tool : Tool) : ToolRegistry :=
  let tool_name := tool.metadata.name
  let tool_category := tool.metadata.category
  let tools2 := alistInsert r.tools tool_name tool
  let cats1 := match alookup tool_category r.categories with
    | Option.none => alistInsert r.categories tool_category []
    | some _ => r.categories
  let names := (alookup tool_category cats1).getD []
  let cats2 := if tool_name ∈ names then cats1
    else alistInsert cats1 tool_category (names ++ [tool_name])
  { tools := tools2, categories := cats2 }

/-- Method `ToolRegistry.get_tool`. -/
def get_tool (r : ToolRegistry) (name : String) : Option Tool :=
  alookup name r.tools

/-- Method `ToolRegistry.get_tools_by_category` (`base.py` lines 173-176).  The
list comprehension indexes `self._tools[name]`, which would raise
`KeyError` on a dangling name; that raise is the `Option.none` outcome. -/
def get_tools_by_category (r : ToolRegistry) (category : String) :
    Option (List Tool) :=
  let tool_names := (alookup category r.categories).getD []
  tool_names.mapM (fun n => alookup n r.tools)

/-- Method `ToolRegistry.list_all_tools`. -/
def list_all_tools (r : ToolRegistry) : List String :=
  r.tools.map (fun kv => kv.1)

/-- Registering a batch of tools into a fresh registry, as process start-up
does. -/
def registerAll (ts : List Tool) : ToolRegistry :=
  ts.foldl register emptyRegistry

/-- Modelled from the spec: the `echo` scenario tool of its testable
properties (no such tool exists in the repository source): name `echo`,
category `test`, one required string parameter `text`; its execute body
returns the supplied text as the result payload and raises nothing. -/
def echoTool : Tool where
  metadata :=
    { name := "echo"
      description := "echo the input text"
      category := "test"
      parameters := [{ name := "text", type := "string",
                       description := "text to echo" }] }
  execute := fun args =>
    Except.ok { success := true, result := alookup "text" args }

/-- A first tool named `x` under category `a` (re-registration scenario). -/
def toolXA : Tool where
  metadata :=
    { name := "x", description := "first tool",
      parameters := [], category := "a" }
  execute := fun _ => Except.ok { success := true }

/-- A second tool, also named `x` but under category `b`. -/
def toolXB : Tool where
  metadata :=
    { name := "x", description := "second tool",
      parameters := [], category := "b" }
  execute := fun _ => Except.ok { success := true }

/-- The registry after registering `toolXA` and then `toolXB`. -/
def rXX : ToolRegistry := register (register emptyRegistry toolXA) toolXB

/-- Metadata with a parameter whose `enum` is present but the empty list. -/
def emptyEnumMeta : ToolMetadata :=
  { name := "t", description := "d",
    parameters := [{ name := "p", type := "string", description := "pd",
                     required := false, enum := some [] }] }

/-- Resolution of one parameter's value, in the words of the spec: the
supplied value, or the default when no value is supplied and a default
exists, or nothing. -/
def resolvedValue (p : ToolParameter) (args : List (String × Value)) :
    Option Value :=
  if getValue args p.name ≠ Value.none then some (getValue args p.name)
  else if p.default ≠ Value.none then some p.default
  else Option.none

/-- One step of validation in the words of the claim: a required parameter
with no supplied value fails naming it; otherwise the resolved value
(explicit or default), when it exists, must satisfy a non-empty enum
constraint and is placed into the output mapping, and a parameter that
resolves to nothing is omitted. -/
def validateStepSpec (args : List (String × Value))
    (acc : List (String × Value)) (p : ToolParameter) :
    Except String (List (String × Value)) :=
  if p.required = true ∧ getValue args p.name = Value.none then
    Except.error (missingParamMsg p.name)
  else
    match resolvedValue p args with
    | Option.none => Except.ok acc
    | some v =>
      match p.enum with
      | some l =>
        if l ≠ [] ∧ v ∉ l then Except.error (enumParamMsg p.name l)
        else Except.ok (alistInsert acc p.name v)
      | Option.none => Except.ok (alistInsert acc p.name v)

/-- Validation in the words of the claim, for comparison with
`validate_parameters`: the parameters are processed in declaration order
with first-failure semantics, starting from the empty output mapping. -/
def validateParametersSpec (params : List ToolParameter)
    (args : List (String × Value)) :
    Except String (List (String × Value)) :=
  params.foldlM (validateStepSpec args) []

section Lemmas

theorem alookup_alistInsert_self {α : Type} (l : List (String × α))
    (k : String) (v : α) : alookup k (alistInsert l k v) = some v := by
  induction l with
  | nil => simp [alookup, alistInsert]
  | cons hd tl ih =>
    obtain ⟨k2, v2⟩ := hd
    by_cases h : k2 = k
    · simp [alistInsert, alookup, h]
    · simp [alistInsert, alookup, h, ih]

theorem alookup_alistInsert_ne {α : Type} (l : List (String × α))
    (k k2 : String) (v : α) (h : k ≠ k2) :
    alookup k2 (alistInsert l k v) = alookup k2 l := by
  induction l with
  | nil => simp [alookup, alistInsert, h]
  | cons hd tl ih =>
    obtain ⟨k3, v3⟩ := hd
    by_cases h3 : k3 = k
    · subst h3
      simp [alistInsert, alookup, h]
    · simp [alistInsert, alookup, h3, ih]

theorem alookup_eq_none {α : Type} (l : List (String × α)) (k : String)
    (h : k ∉ l.map Prod.fst) : alookup k l = Option.none := by
  induction l with
  | nil => simp [alookup]
  | cons hd tl ih =>
    obtain ⟨k2, v2⟩ := hd
    simp only [List.map_cons, List.mem_cons] at h
    push_neg at h
    simp only [alookup]
    rw [if_neg (fun he => h.1 he.symm)]
    exact ih h.2

theorem keys_alistInsert {α : Type} (l : List (String × α)) (k x : String)
    (v : α) (h : x ∈ (alistInsert l k v).map Prod.fst) :
    x = k ∨ x ∈ l.map Prod.fst := by
  induction l with
  | nil => simpa [alistInsert] using h
  | cons hd tl ih =>
    obtain ⟨k2, v2⟩ := hd
    simp only [alistInsert] at h
    by_cases h2 : k2 = k
    · rw [if_pos h2] at h
      simp only [List.map_cons, List.mem_cons] at h
      rcases h with h | h
      · exact Or.inl h
      · exact Or.inr (by simp [h])
    · rw [if_neg h2] at h
      simp only [List.map_cons, List.mem_cons] at h
      rcases h with h | h
      · exact Or.inr (by simp [h])
      · rcases ih h with h | h
        · exact Or.inl h
        · exact Or.inr (by simp [h])

theorem alistInsert_of_not_mem {α : Type} (l : List (String × α))
    (k : String) (v : α) (h : k ∉ l.map Prod.fst) :
    alistInsert l k v = l ++ [(k, v)] := by
  induction l with
  | nil => simp [alistInsert]
  | cons hd tl ih =>
    obtain ⟨k2, v2⟩ := hd
    simp only [List.map_cons, List.mem_cons] at h
    push_neg at h
    simp only [alistInsert]
    rw [if_neg (fun he => h.1 he.symm)]
    simp [ih h.2]

end Lemmas

section PathLemmas

theorem safe_execute_init_false (tool : Tool) (flag : Bool)
    (setup : Except String Unit) (args : List (String × Value)) (t0 t1 : Rat)
    (h : (initializeTool flag setup).2 = false) :
    safe_execute tool flag setup args t0 t1 =
      ((initializeTool flag setup).1,
        { success := false, error := some "工具初始化失败" }) := by
  simp only [safe_execute]
  rw [if_pos h]

theorem safe_execute_validate_error (tool : Tool) (flag : Bool)
    (setup : Except String Unit) (args : List (String × Value)) (t0 t1 : Rat)
    (msg : String) (h1 : (initializeTool flag setup).2 = true)
    (h2 : validate_parameters tool.metadata args = Except.error msg) :
    safe_execute tool flag setup args t0 t1 =
      ((initializeTool flag setup).1,
        { success := false, error := some msg,
          execution_time := some (t1 - t0) }) := by
  simp only [safe_execute]
  rw [if_neg (by simp [h1]), h2]

theorem safe_execute_execute_error (tool : Tool) (flag : Bool)
    (setup : Except String Unit) (args : List (String × Value)) (t0 t1 : Rat)
    (msg : String) (validated : List (String × Value))
    (h1 : (initializeTool flag setup).2 = true)
    (h2 : validate_parameters tool.metadata args = Except.ok validated)
    (h3 : tool.execute validated = Except.error msg) :
    safe_execute tool flag setup args t0 t1 =
      ((initializeTool flag setup).1,
        { success := false, error := some msg,
          execution_time := some (t1 - t0) }) := by
  simp only [safe_execute, h2, h3]
  rw [if_neg (by simp [h1])]

theorem safe_execute_execute_ok (tool : Tool) (flag : Bool)
    (setup : Except String Unit) (args : List (String × Value)) (t0 t1 : Rat)
    (validated : List (String × Value)) (res : ToolResult)
    (h1 : (initializeTool flag setup).2 = true)
    (h2 : validate_parameters tool.metadata args = Except.ok validated)
    (h3 : tool.execute validated = Except.ok res) :
    safe_execute tool flag setup args t0 t1 =
      ((initializeTool flag setup).1,
        { res with execution_time := some (t1 - t0) }) := by
  simp only [safe_execute, h2, h3]
  rw [if_neg (by simp [h1])]

end PathLemmas

/-- C4: `initialize` is idempotent and failure-retriable.  For every setup
outcome `s`, a call with the flag already `true` returns `true` and leaves
the flag `true` without consulting the setup; a first call whose setup
succeeds flips the flag to `true` and returns `true`; a call whose setup
raises returns `false` and leaves the flag `false`, raising nothing; and a
call made after a failed attempt behaves exactly like a fresh first call
(the failure is not cached). -/
theorem c4_initialize_idempotent_retriable :
    ∀ (s s2 : Except String Unit) (e : String),
      initializeTool true s = (true, true)
      ∧ initializeTool false (Except.ok ()) = (true, true)
      ∧ initializeTool false (Except.error e) = (false, false)
      ∧ initializeTool (initializeTool false (Except.error e)).1 s2
          = initializeTool false s2 := by
  intro s s2 e
  exact ⟨rfl, rfl, rfl, rfl⟩

/-- C5 counterexample: after registering a tool named `x` under category
`a` and then a tool named `x` under category `b`, the name index does hold
the second tool, but `x` is still a member of category `a`'s list — the
claimed absence of stale category membership is false for this input. -/
theorem c5_counterexample :
    ¬ ((get_tool rXX "x").map (fun t => t.metadata.category) = some "b"
       ∧ "x" ∉ (alookup "a" rXX.categories).getD []) := by
  decide

/-- C5 (amended): after the two registrations, the name index holds only
the second tool, and the second category's list holds `x`; but the first
category's list also still holds `x` (stale membership), so
`get_tools_by_category` on the old category `a` returns the second tool —
the category index does diverge from the per-tool categories. -/
theorem c5_stale_category_membership :
    (get_tool rXX "x").map (fun t => t.metadata) = some toolXB.metadata
    ∧ alookup "b" rXX.categories = some ["x"]
    ∧ alookup "a" rXX.categories = some ["x"]
    ∧ (get_tools_by_category rXX "a").map
        (fun ts => ts.map (fun t => t.metadata.description))
      = some ["second tool"] := by
  decide

/-- C1 counterexample: an exception raised during initialization (setup
outcome `boom`) is not converted into an envelope whose `error` is the
exception's message — the envelope carries the fixed message instead. -/
theorem c1_counterexample :
    ¬ ((safe_execute echoTool false (Except.error "boom")
        [("text", Value.str "hi")] 0 1).2.error = some "boom") := by
  decide

/-- C1 (amended): no exception escapes `safe_execute`.  An exception raised
during parameter validation or during execution is caught and converted
into an envelope with `success = false` and `error` equal to the
exception's message; an exception raised during initialization is caught
inside `initialize`, and `safe_execute` returns the fixed envelope
`success = false`, `error = "工具初始化失败"`, not the exception's own
message. -/
theorem c1_exception_capture (tool : Tool) (flag : Bool)
    (setup : Except String Unit) (args : List (String × Value))
    (t0 t1 : Rat) (msg : String)
    (h : ((initializeTool flag setup).2 = true ∧
            validate_parameters tool.metadata args = Except.error msg) ∨
         (∃ v, (initializeTool flag setup).2 = true ∧
            validate_parameters tool.metadata args = Except.ok v ∧
            tool.execute v = Except.error msg)) :
    (safe_execute tool flag setup args t0 t1).2 =
      { success := false, error := some msg,
        execution_time := some (t1 - t0) }
    ∧ (safe_execute tool false (Except.error msg) args t0 t1).2 =
      { success := false, error := some "工具初始化失败" } := by
  constructor
  · rcases h with ⟨h1, h2⟩ | ⟨v, h1, h2, h3⟩
    · rw [safe_execute_validate_error tool flag setup args t0 t1 msg h1 h2]
    · rw [safe_execute_execute_error tool flag setup args t0 t1 msg v h1 h2 h3]
  · rw [safe_execute_init_false tool false (Except.error msg) args t0 t1 rfl]

/-- C1 witness: the amended theorem applied to the echo tool with no
arguments (a raised missing-parameter `ValueError`). -/
theorem c1_witness :
    (safe_execute echoTool false (Except.ok ()) [] 0 1).2 =
      { success := false, error := some (missingParamMsg "text"),
        execution_time := some (1 - 0) }
    ∧ (safe_execute echoTool false (Except.error (missingParamMsg "text"))
        [] 0 1).2 =
      { success := false, error := some "工具初始化失败" } :=
  c1_exception_capture echoTool false (Except.ok ()) [] 0 1
    (missingParamMsg "text") (Or.inl ⟨by decide, by decide⟩)

/-- C2 counterexample: on the initialization-failure path the envelope is
returned with `execution_time` unset, so it is not populated on every
outcome path. -/
theorem c2_counterexample :
    ¬ ∃ q : Rat, (safe_execute echoTool false (Except.error "boom")
      [("text", Value.str "hi")] 0 1).2.execution_time = some q := by
  have h : (safe_execute echoTool false (Except.error "boom")
      [("text", Value.str "hi")] 0 1).2.execution_time = Option.none := by
    decide
  rintro ⟨q, hq⟩
  rw [h] at hq
  exact Option.noConfusion hq

/-- C2 (amended): when initialization reports success the returned envelope
always carries `execution_time = t1 - t0` (the non-negative wall-clock
elapsed), whatever `execute` put there — the wrapper overwrites it on the
success, validation-failure and execution-failure paths alike; but when
initialization reports failure the envelope is returned with
`execution_time` unset. -/
theorem c2_execution_time_stamping (tool : Tool) (flag : Bool)
    (setup : Except String Unit) (args : List (String × Value)) (t0 t1 : Rat)
    (h : t0 ≤ t1) :
    ((initializeTool flag setup).2 = true →
       (safe_execute tool flag setup args t0 t1).2.execution_time
         = some (t1 - t0) ∧ (0:Rat) ≤ t1 - t0)
    ∧ ((initializeTool flag setup).2 = false →
       (safe_execute tool flag setup args t0 t1).2.execution_time
         = Option.none) := by
  constructor
  · intro h1
    refine ⟨?_, sub_nonneg.mpr h⟩
    cases hv : validate_parameters tool.metadata args with
    | error msg =>
      rw [safe_execute_validate_error tool flag setup args t0 t1 msg h1 hv]
    | ok validated =>
      cases he : tool.execute validated with
      | error msg =>
        rw [safe_execute_execute_error tool flag setup args t0 t1 msg
          validated h1 hv he]
      | ok res =>
        rw [safe_execute_execute_ok tool flag setup args t0 t1 validated res
          h1 hv he]
  · intro h1
    rw [safe_execute_init_false tool flag setup args t0 t1 h1]

/-- C2 witness: the amended theorem applied to the echo tool with no
arguments at the instants 0 and 1. -/
theorem c2_witness :
    (safe_execute echoTool false (Except.ok ()) [] 0 1).2.execution_time
      = some (1 - 0) ∧ (0:Rat) ≤ 1 - 0 :=
  (c2_execution_time_stamping echoTool false (Except.ok ()) [] 0 1
    (by decide)).1 (by decide)

/-- C7 counterexample: calling the echo tool with no arguments yields an
error message different from the claimed english string
`missing parameter: text` — the source raises its own (chinese) message. -/
theorem c7_counterexample :
    ¬ ((safe_execute echoTool false (Except.ok ()) [] 0 1).2.error
       = some "missing parameter: text") := by
  decide

/-- C7 (amended): for the echo scenario tool, `safe_execute` with no
arguments returns a failure envelope whose error is the source's message
`缺少必需参数: text` (which names the missing parameter `text`), and
`safe_execute` with `text="hi"` returns a success envelope with result
`"hi"` and a non-negative `execution_time`. -/
theorem c7_echo_scenario (t0 t1 : Rat) (h : t0 ≤ t1) :
    (safe_execute echoTool false (Except.ok ()) [] t0 t1).2.success = false
    ∧ (safe_execute echoTool false (Except.ok ()) [] t0 t1).2.error
      = some "缺少必需参数: text"
    ∧ (safe_execute echoTool false (Except.ok ())
        [("text", Value.str "hi")] t0 t1).2.success = true
    ∧ (safe_execute echoTool false (Except.ok ())
        [("text", Value.str "hi")] t0 t1).2.result = some (Value.str "hi")
    ∧ ∃ q : Rat, (safe_execute echoTool false (Except.ok ())
        [("text", Value.str "hi")] t0 t1).2.execution_time = some q
        ∧ 0 ≤ q := by
  have hmiss : validate_parameters echoTool.metadata []
      = Except.error "缺少必需参数: text" := by decide
  have hok : validate_parameters echoTool.metadata [("text", Value.str "hi")]
      = Except.ok [("text", Value.str "hi")] := by decide
  have hexec : echoTool.execute [("text", Value.str "hi")]
      = Except.ok { success := true, result := some (Value.str "hi") } := by
    decide
  rw [safe_execute_validate_error echoTool false (Except.ok ()) [] t0 t1
    "缺少必需参数: text" rfl hmiss]
  rw [safe_execute_execute_ok echoTool false (Except.ok ())
    [("text", Value.str "hi")] t0 t1 [("text", Value.str "hi")]
    { success := true, result := some (Value.str "hi") } rfl hok hexec]
  exact ⟨rfl, rfl, rfl, rfl, t1 - t0, rfl, sub_nonneg.mpr h⟩

/-- C7 witness: the amended scenario theorem at the instants 0 and 1. -/
theorem c7_witness :
    (safe_execute echoTool false (Except.ok ())
      [("text", Value.str "hi")] 0 1).2.result = some (Value.str "hi") :=
  (c7_echo_scenario 0 1 (by decide)).2.2.2.1

section ValidationLemmas

theorem validateParams_ext (a1 a2 : List (String × Value)) :
    ∀ (params : List ToolParameter) (acc : List (String × Value)),
      (∀ p ∈ params, getValue a1 p.name = getValue a2 p.name) →
      validateParams params a1 acc = validateParams params a2 acc := by
  intro params
  induction params with
  | nil => intro acc _; rfl
  | cons p rest ih =>
    intro acc h
    have hp : getValue a1 p.name = getValue a2 p.name :=
      h p (List.mem_cons_self p rest)
    have hrest : ∀ q ∈ rest, getValue a1 q.name = getValue a2 q.name :=
      fun q hq => h q (List.mem_cons_of_mem p hq)
    simp only [validateParams, hp]
    by_cases h1 : p.required = true ∧ getValue a2 p.name = Value.none
    · simp only [if_pos h1]
    · simp only [if_neg h1]
      by_cases h2 : (if getValue a2 p.name = Value.none ∧
          p.default ≠ Value.none then p.default else getValue a2 p.name)
          ≠ Value.none
      · simp only [if_pos h2]
        cases hpe : p.enum with
        | none =>
          simp only [hpe]
          exact ih _ hrest
        | some l =>
          simp only [hpe]
          by_cases h3 : l ≠ [] ∧ (if getValue a2 p.name = Value.none ∧
              p.default ≠ Value.none then p.default
              else getValue a2 p.name) ∉ l
          · simp only [if_pos h3]
          · simp only [if_neg h3]
            exact ih _ hrest
      · simp only [if_neg h2]
        exact ih _ hrest

theorem alookup_filter_ne (name : String) :
    ∀ (args : List (String × Value)) (k : String), k ≠ name →
      alookup k (args.filter (fun kv => !(kv.1 == name))) = alookup k args := by
  intro args
  induction args with
  | nil => intro k _; rfl
  | cons hd tl ih =>
    intro k hk
    obtain ⟨k2, v2⟩ := hd
    simp only [List.filter_cons]
    by_cases h2 : k2 = name
    · have hb : (!((k2, v2).1 == name)) = false := by simp [h2]
      rw [hb]
      simp only [Bool.false_eq_true, if_false]
      rw [ih k hk]
      simp only [alookup]
      rw [if_neg (fun he : k2 = k => hk (he.symm.trans h2))]
    · have hb : (!((k2, v2).1 == name)) = true := by simp [h2]
      rw [hb]
      simp only [if_true]
      simp only [alookup]
      by_cases h3 : k2 = k
      · simp only [if_pos h3]
      · simp only [if_neg h3]
        exact ih k hk

theorem alookup_filter_self (name : String) (args : List (String × Value)) :
    alookup name (args.filter (fun kv => !(kv.1 == name))) = Option.none := by
  apply alookup_eq_none
  intro hmem
  simp only [List.mem_map] at hmem
  obtain ⟨kv, hkv, hfst⟩ := hmem
  have := List.of_mem_filter hkv
  simp [hfst] at this

theorem getValue_explicit_none (args : List (String × Value)) (name n : String) :
    getValue ((name, Value.none) :: args) n
      = getValue (args.filter (fun kv => !(kv.1 == name))) n := by
  by_cases h : name = n
  · subst h
    simp [getValue, alookup, alookup_filter_self]
  · simp only [getValue, alookup, if_neg h]
    rw [alookup_filter_ne name args n (fun he => h he.symm)]

end ValidationLemmas

/-- C9: `validate_parameters` cannot distinguish an explicitly supplied
`None` from an absent argument.  First, prepending an explicit
`(name, None)` binding is equivalent to erasing every binding of `name`
from the arguments; second, a required parameter supplied `None` fails as
missing even when a default (and any enum) exists; third, a parameter
supplied `None` is validated exactly as if the argument had not been
supplied at all. -/
theorem c9_explicit_none_indistinguishable :
    (∀ (m : ToolMetadata) (args : List (String × Value)) (name : String),
       validate_parameters m ((name, Value.none) :: args)
         = validate_parameters m (args.filter (fun kv => !(kv.1 == name))))
    ∧ (∀ (n ty ds : String) (d : Value) (e : Option (List Value)),
       validate_parameters
         { name := "t", description := "d",
           parameters := [{ name := n, type := ty, description := ds,
                            required := true, default := d, enum := e }] }
         [(n, Value.none)]
         = Except.error (missingParamMsg n))
    ∧ (∀ (m : ToolMetadata) (name : String),
       validate_parameters m [(name, Value.none)]
         = validate_parameters m []) := by
  have key : ∀ (m : ToolMetadata) (args : List (String × Value))
      (name : String),
      validate_parameters m ((name, Value.none) :: args)
        = validate_parameters m (args.filter (fun kv => !(kv.1 == name))) := by
    intro m args name
    exact validateParams_ext _ _ m.parameters []
      (fun p _ => getValue_explicit_none args name p.name)
  refine ⟨key, ?_, ?_⟩
  · intro n ty ds d e
    simp [validate_parameters, validateParams, getValue, alookup]
  · intro m name
    simpa using key m [] name

theorem validateParams_keys (args : List (String × Value)) :
    ∀ (params : List ToolParameter) (acc out : List (String × Value)),
      validateParams params args acc = Except.ok out →
      ∀ k ∈ out.map Prod.fst,
        k ∈ acc.map Prod.fst ∨ k ∈ params.map (fun p => p.name) := by
  intro params
  induction params with
  | nil =>
    intro acc out h k hk
    simp only [validateParams] at h
    cases h
    exact Or.inl hk
  | cons p rest ih =>
    intro acc out h k hk
    simp only [validateParams] at h
    by_cases h1 : p.required = true ∧ getValue args p.name = Value.none
    · rw [if_pos h1] at h
      exact Except.noConfusion h
    · rw [if_neg h1] at h
      by_cases h2 : (if getValue args p.name = Value.none ∧
          p.default ≠ Value.none then p.default else getValue args p.name)
          ≠ Value.none
      · rw [if_pos h2] at h
        cases hpe : p.enum with
        | none =>
          simp only [hpe] at h
          rcases ih _ _ h k hk with hin | hin
          · rcases keys_alistInsert acc p.name k _ hin with he | he
            · exact Or.inr (by simp [he])
            · exact Or.inl he
          · exact Or.inr (by simp [hin])
        | some l =>
          simp only [hpe] at h
          by_cases h3 : l ≠ [] ∧ (if getValue args p.name = Value.none ∧
              p.default ≠ Value.none then p.default
              else getValue args p.name) ∉ l
          · rw [if_pos h3] at h
            exact Except.noConfusion h
          · rw [if_neg h3] at h
            rcases ih _ _ h k hk with hin | hin
            · rcases keys_alistInsert acc p.name k _ hin with he | he
              · exact Or.inr (by simp [he])
              · exact Or.inl he
            · exact Or.inr (by simp [hin])
      · rw [if_neg h2] at h
        rcases ih _ _ h k hk with hin | hin
        · exact Or.inl hin
        · exact Or.inr (by simp [hin])

theorem validate_parameters_drop_undeclared (m : ToolMetadata)
    (args : List (String × Value)) (k : String) (v : Value)
    (h : k ∉ m.parameters.map (fun p => p.name)) :
    validate_parameters m ((k, v) :: args) = validate_parameters m args := by
  apply validateParams_ext
  intro p hp
  have hmem : p.name ∈ m.parameters.map (fun p => p.name) :=
    List.mem_map_of_mem (fun p => p.name) hp
  have hne : p.name ≠ k := fun he => h (he ▸ hmem)
  simp only [getValue, alookup]
  rw [if_neg (fun hke : k = p.name => hne hke.symm)]

/-- C10: arguments supplied under names not declared in the tool's
metadata are silently dropped.  First, a successful validation's output
mapping contains only declared parameter names; second, prepending an
argument whose name is not declared changes nothing about `safe_execute`'s
outcome — the argument is neither forwarded to `execute` (which only ever
receives the validated output) nor reported as an error. -/
theorem c10_undeclared_arguments :
    (∀ (m : ToolMetadata) (args out : List (String × Value)),
       validate_parameters m args = Except.ok out →
       ∀ k ∈ out.map Prod.fst, k ∈ m.parameters.map (fun p => p.name))
    ∧ (∀ (tool : Tool) (flag : Bool) (setup : Except String Unit)
         (args : List (String × Value)) (k : String) (v : Value)
         (t0 t1 : Rat),
       k ∉ tool.metadata.parameters.map (fun p => p.name) →
       safe_execute tool flag setup ((k, v) :: args) t0 t1
         = safe_execute tool flag setup args t0 t1) := by
  constructor
  · intro m args out h k hk
    rcases validateParams_keys args m.parameters [] out h k hk with hin | hin
    · simp at hin
    · exact hin
  · intro tool flag setup args k v t0 t1 hk
    have hval := validate_parameters_drop_undeclared tool.metadata args k v hk
    simp only [safe_execute, hval]

/-- C10 witness: an undeclared `extra` argument to the echo tool leaves
the whole invocation outcome unchanged. -/
theorem c10_witness :
    safe_execute echoTool false (Except.ok ())
        [("extra", Value.int 1), ("text", Value.str "hi")] 0 1
      = safe_execute echoTool false (Except.ok ())
        [("text", Value.str "hi")] 0 1 :=
  c10_undeclared_arguments.2 echoTool false (Except.ok ())
    [("text", Value.str "hi")] "extra" (Value.int 1) 0 1 (by decide)

section RegistryLemmas

theorem register_tools_alookup_ne (r : ToolRegistry) (t : Tool)
    (name : String) (h : t.metadata.name ≠ name) :
    alookup name (register r t).tools = alookup name r.tools := by
  simp only [register]
  exact alookup_alistInsert_ne r.tools t.metadata.name name t h

theorem register_categories_alookup_ne (r : ToolRegistry) (t : Tool)
    (c : String) (h : t.metadata.category ≠ c) :
    alookup c (register r t).categories = alookup c r.categories := by
  simp only [register]
  cases hm : alookup t.metadata.category r.categories with
  | none =>
    simp only [hm]
    by_cases hmem : t.metadata.name ∈ (alookup t.metadata.category
        (alistInsert r.categories t.metadata.category [])).getD []
    · rw [if_pos hmem]
      exact alookup_alistInsert_ne r.categories t.metadata.category c [] h
    · rw [if_neg hmem]
      rw [alookup_alistInsert_ne _ t.metadata.category c _ h]
      exact alookup_alistInsert_ne r.categories t.metadata.category c [] h
  | some names =>
    simp only [hm, Option.getD_some]
    by_cases hmem : t.metadata.name ∈ names
    · rw [if_pos hmem]
    · rw [if_neg hmem]
      exact alookup_alistInsert_ne r.categories t.metadata.category c _ h

theorem registerAll_alookup_untouched (name c : String) :
    ∀ (ts : List Tool) (r : ToolRegistry),
      (∀ t ∈ ts, t.metadata.name ≠ name) →
      (∀ t ∈ ts, t.metadata.category ≠ c) →
      alookup name (ts.foldl register r).tools = alookup name r.tools
      ∧ alookup c (ts.foldl register r).categories
          = alookup c r.categories := by
  intro ts
  induction ts with
  | nil => intro r _ _; exact ⟨rfl, rfl⟩
  | cons t rest ih =>
    intro r h1 h2
    simp only [List.foldl_cons]
    have hrec := ih (register r t)
      (fun q hq => h1 q (List.mem_cons_of_mem t hq))
      (fun q hq => h2 q (List.mem_cons_of_mem t hq))
    constructor
    · rw [hrec.1,
        register_tools_alookup_ne r t name (h1 t (List.mem_cons_self t rest))]
    · rw [hrec.2,
        register_categories_alookup_ne r t c
          (h2 t (List.mem_cons_self t rest))]

end RegistryLemmas

/-- C8: registry lookups signal absence as an absent value, never as a
raised error.  For any batch of registrations, `get_tool` on a name that
none of the registered tools bears returns nothing, and
`get_tools_by_category` on a category that none of the registered tools
bears returns the empty list (and in particular does not reach the raising
`self._tools[name]` indexing). -/
theorem c8_absent_lookups (ts : List Tool) (name c : String)
    (h1 : ∀ t ∈ ts, t.metadata.name ≠ name)
    (h2 : ∀ t ∈ ts, t.metadata.category ≠ c) :
    get_tool (registerAll ts) name = Option.none
    ∧ get_tools_by_category (registerAll ts) c = some [] := by
  have hgo := registerAll_alookup_untouched name c ts emptyRegistry h1 h2
  constructor
  · show alookup name (registerAll ts).tools = Option.none
    rw [show (registerAll ts).tools = (ts.foldl register emptyRegistry).tools
      from rfl, hgo.1]
    rfl
  · show get_tools_by_category (registerAll ts) c = some []
    unfold get_tools_by_category
    rw [show (registerAll ts).categories
      = (ts.foldl register emptyRegistry).categories from rfl, hgo.2]
    rfl

/-- C8 witness: lookups for an unregistered name and an unknown category
on a one-tool registry. -/
theorem c8_witness :
    get_tool (registerAll [echoTool]) "missing" = Option.none
    ∧ get_tools_by_category (registerAll [echoTool]) "nonexistent"
      = some [] :=
  c8_absent_lookups [echoTool] "missing" "nonexistent"
    (by decide) (by decide)

theorem validateParams_eq_spec_fold (args : List (String × Value)) :
    ∀ (params : List ToolParameter) (acc : List (String × Value)),
      validateParams params args acc
        = params.foldlM (validateStepSpec args) acc := by
  intro params
  induction params with
  | nil => intro acc; rfl
  | cons p rest ih =>
    intro acc
    rw [List.foldlM_cons]
    by_cases h1 : p.required = true ∧ getValue args p.name = Value.none
    · simp only [validateParams, validateStepSpec, if_pos h1]
      rfl
    · simp only [validateParams, validateStepSpec, if_neg h1]
      by_cases hv : getValue args p.name = Value.none
      · by_cases hd : p.default ≠ Value.none
        · simp only [resolvedValue, if_pos (And.intro hv hd),
            if_neg (fun hc : getValue args p.name ≠ Value.none => hc hv),
            if_pos hd]
          cases hpe : p.enum with
          | none =>
            simp only [hpe]
            rw [ih]
            rfl
          | some l =>
            simp only [hpe]
            by_cases h3 : l ≠ [] ∧ p.default ∉ l
            · simp only [if_pos h3]
              rfl
            · simp only [if_neg h3]
              rw [ih]
              rfl
        · simp only [resolvedValue, if_neg (fun hc : _ ∧ _ => hd hc.2),
            if_neg (fun hc : getValue args p.name ≠ Value.none => hc hv),
            if_neg hd]
          rw [ih]
          rfl
      · have hc2 : ¬ (getValue args p.name = Value.none
            ∧ p.default ≠ Value.none) := fun hc => hv hc.1
        simp only [resolvedValue, if_neg hc2, if_pos hv]
        cases hpe : p.enum with
        | none =>
          simp only [hpe]
          rw [ih]
          rfl
        | some l =>
          simp only [hpe]
          by_cases h3 : l ≠ [] ∧ getValue args p.name ∉ l
          · simp only [if_pos h3]
            rfl
          · simp only [if_neg h3]
            rw [ih]
            rfl

/-- C3: `validate_parameters` computes exactly what the claim describes.
The claim's reading — per declared parameter in declaration order: fail on
a required parameter with no supplied value; resolve to the supplied value
or else the default; enforce a non-empty enum constraint on the resolved
value; place resolved values into the output and omit parameters that
resolve to nothing — is formalised verbatim as `validateParametersSpec`,
and the source's `validate_parameters` agrees with it on every metadata
and every argument mapping. -/
theorem c3_validate_parameters_refined :
    ∀ (m : ToolMetadata) (args : List (String × Value)),
      validate_parameters m args = validateParametersSpec m.parameters args :=
  fun m args => validateParams_eq_spec_fold args m.parameters []

section SchemaLemmas

theorem props_foldl (params : List ToolParameter) :
    ∀ (acc : List (String × PropertySchema)),
      ((params.map (fun p => p.name)).Nodup) →
      (∀ p ∈ params, p.name ∉ acc.map Prod.fst) →
      params.foldl (fun acc p => alistInsert acc p.name (paramProperty p)) acc
        = acc ++ params.map (fun p => (p.name, paramProperty p)) := by
  induction params with
  | nil => intro acc _ _; simp
  | cons p rest ih =>
    intro acc hnd hfresh
    rw [List.map_cons, List.nodup_cons] at hnd
    obtain ⟨hhead, hnd2⟩ := hnd
    simp only [List.foldl_cons]
    rw [alistInsert_of_not_mem acc p.name _
      (hfresh p (List.mem_cons_self p rest))]
    rw [ih (acc ++ [(p.name, paramProperty p)]) hnd2 ?_]
    · simp
    · intro q hq
      simp only [List.map_append, List.mem_append]
      rintro (hin | hin)
      · exact hfresh q (List.mem_cons_of_mem p hq) hin
      · simp only [List.map_cons, List.map_nil, List.mem_singleton] at hin
        refine hhead ?_
        rw [← hin]
        exact List.mem_map_of_mem (fun p => p.name) hq

theorem schema_properties_eq (m : ToolMetadata)
    (h : (m.parameters.map (fun p => p.name)).Nodup) :
    (to_langchain_tool_schema m).properties
      = m.parameters.map (fun p => (p.name, paramProperty p)) := by
  show m.parameters.foldl
      (fun acc p => alistInsert acc p.name (paramProperty p)) []
    = m.parameters.map (fun p => (p.name, paramProperty p))
  rw [props_foldl m.parameters [] h (by simp)]
  simp

theorem alookup_name_map (params : List ToolParameter) :
    ∀ (p : ToolParameter), p ∈ params →
      ((params.map (fun q => q.name)).Nodup) →
      alookup p.name (params.map (fun q => (q.name, paramProperty q)))
        = some (paramProperty p) := by
  induction params with
  | nil => intro p hp _; cases hp
  | cons q rest ih =>
    intro p hp hnd
    rw [List.map_cons, List.nodup_cons] at hnd
    obtain ⟨hhead, hnd2⟩ := hnd
    rcases List.mem_cons.mp hp with he | hmem
    · subst he
      simp [alookup]
    · simp only [List.map_cons, alookup]
      rw [if_neg ?_]
      · exact ih p hmem hnd2
      · intro hq
        refine hhead ?_
        rw [hq]
        exact List.mem_map_of_mem (fun q => q.name) hmem

theorem mem_schema_required_iff (m : ToolMetadata) (n : String) :
    n ∈ (to_langchain_tool_schema m).required
      ↔ ∃ p ∈ m.parameters, p.name = n ∧ p.required = true := by
  show n ∈ (m.parameters.filter (fun p => p.required = true)).map
      (fun p => p.name)
    ↔ ∃ p ∈ m.parameters, p.name = n ∧ p.required = true
  simp only [List.mem_map, List.mem_filter, decide_eq_true_eq]
  constructor
  · rintro ⟨p, ⟨hp, hr⟩, hn⟩
    exact ⟨p, hp, hn, hr⟩
  · rintro ⟨p, hp, hn, hr⟩
    exact ⟨p, ⟨hp, hr⟩, hn⟩

end SchemaLemmas

/-- C6 counterexample: for a parameter whose `enum` is present but the
empty list, the exported property omits the `enum` key, so the claim that
the property carries the enum constraint exactly when one is present is
false at this metadata. -/
theorem c6_counterexample :
    ¬ ((alookup "p" (to_langchain_tool_schema emptyEnumMeta).properties).map
        (fun ps => ps.enum) = some (some ([] : List Value))) := by
  decide

/-- C6 (amended): the schema exporter is a pure function of the metadata
(it reads nothing else), and for metadata whose parameter names are
distinct it yields exactly one property per Parameter Descriptor, in
declaration order, carrying the descriptor's type and description, the
enum exactly when one is present and non-empty (a present-but-empty enum
is omitted, Python truthiness), the default exactly when one is present
(not `None`), and a required list containing exactly the names of the
parameters whose required flag is true. -/
theorem c6_schema_exporter (m : ToolMetadata)
    (h : (m.parameters.map (fun p => p.name)).Nodup) :
    ((to_langchain_tool_schema m).properties.map Prod.fst
       = m.parameters.map (fun p => p.name))
    ∧ (∀ p ∈ m.parameters,
         alookup p.name (to_langchain_tool_schema m).properties
           = some (paramProperty p))
    ∧ (∀ p : ToolParameter,
         (paramProperty p).type = p.type
         ∧ (paramProperty p).description = p.description
         ∧ ((∃ l, p.enum = some l ∧ l ≠ []) →
             (paramProperty p).enum = p.enum)
         ∧ ((p.enum = Option.none ∨ p.enum = some []) →
             (paramProperty p).enum = Option.none)
         ∧ (p.default ≠ Value.none →
             (paramProperty p).default = some p.default)
         ∧ (p.default = Value.none →
             (paramProperty p).default = Option.none))
    ∧ (∀ n : String, n ∈ (to_langchain_tool_schema m).required
         ↔ ∃ p ∈ m.parameters, p.name = n ∧ p.required = true) := by
  refine ⟨?_, ?_, ?_, mem_schema_required_iff m⟩
  · rw [schema_properties_eq m h]
    simp
  · intro p hp
    rw [schema_properties_eq m h]
    exact alookup_name_map m.parameters p hp h
  · intro p
    refine ⟨rfl, rfl, ?_, ?_, ?_, ?_⟩
    · rintro ⟨l, he, hl⟩
      simp [paramProperty, enumTruthy, he, hl]
    · rintro (he | he) <;> simp [paramProperty, enumTruthy, he]
    · intro hd
      simp [paramProperty, hd]
    · intro hd
      simp [paramProperty, hd]

/-- C6 witness: the amended theorem applied to the echo tool's metadata. -/
theorem c6_witness :
    (to_langchain_tool_schema echoTool.metadata).properties.map Prod.fst
      = echoTool.metadata.parameters.map (fun p => p.name) :=
  (c6_schema_exporter echoTool.metadata (by decide)).1
